import Mathlib

/-!
Verification development for the Comani model-pack reference-resolution
engine (`comani/model/model_pack.py`) and its download backends
(`comani/utils/download.py`).

Python strings are modelled as Lean `String`s, but every operation on them
is implemented here directly over the underlying `List Char` so that all
definitions reduce in the kernel.  Python `dict`s (which preserve insertion
order and have unique keys) are modelled as association lists
`List (String × α)` together with `dictInsert`, which updates an existing
key in place and appends a fresh key at the end — exactly the insertion
semantics of a Python dict.  Python `set`s used only for membership are
modelled as `List String` extended by consing.
-/

namespace Comani

/-- Split a list of characters at every occurrence of the separator
character, mirroring Python `str.split(sep)` (so the result is never
empty, and empty fragments are kept). -/
def splitChAux (sep : Char) : List Char → List (List Char)
  | [] => [[]]
  | c :: cs =>
    let r := splitChAux sep cs
    if c = sep then [] :: r
    else
      match r with
      | [] => [[c]]
      | h :: t => (c :: h) :: t

/-- Python `s.split(sep)` for a one-character separator. -/
def splitCh (sep : Char) (s : String) : List String :=
  (splitChAux sep s.data).map (fun l => String.mk l)

/-- Python `s.split(".")[-1]`: the last dot-segment of a reference. -/
def lastSeg (s : String) : String :=
  (splitCh '.' s).getLastD ""

/-- Python `s.split(".")[0]`: the first dot-segment. -/
def headSeg (s : String) : String :=
  (splitCh '.' s).headD ""

/-- Join a list of strings with a separator, mirroring Python
`sep.join(parts)`. -/
def joinWith (sep : String) : List String → String
  | [] => ""
  | [x] => x
  | x :: xs => x ++ sep ++ joinWith sep xs

/-- Python membership test `ch in s` for a single character. -/
def hasChar (s : String) (c : Char) : Bool :=
  s.data.contains c

/-- Python `s.startswith(p)`, computed on the character lists. -/
def strStarts (s p : String) : Bool :=
  s.data.take p.data.length == p.data

/-- Python `s.endswith(p)`, computed on the character lists. -/
def strEnds (s p : String) : Bool :=
  p.data.length ≤ s.data.length && s.data.drop (s.data.length - p.data.length) == p.data

/-- Python `len(s)` (code points). -/
def strLen (s : String) : Nat := s.data.length

/-- Python slicing `s[n:]` (by code points). -/
def strDrop (s : String) (n : Nat) : String :=
  String.mk (s.data.drop n)

/-- Python slicing `s[:-n]` (by code points). -/
def strDropRight (s : String) (n : Nat) : String :=
  String.mk (s.data.take (s.data.length - n))

/-- Python slicing `s[:n]` (by code points). -/
def strTake (s : String) (n : Nat) : String :=
  String.mk (s.data.take n)

/-- Substring test: does `needle` occur inside `hay`?  Mirrors Python
`needle in hay`. -/
def isSubCl (needle : List Char) : List Char → Bool
  | [] => needle.isEmpty
  | c :: rest => ((c :: rest).take needle.length == needle) || isSubCl needle rest

/-- Python `needle in hay` on strings. -/
def strHas (hay needle : String) : Bool :=
  isSubCl needle.data hay.data

/-- Python `s.lower()` (character-wise). -/
def strLower (s : String) : String :=
  String.mk (s.data.map Char.toLower)

/-- Python `s.replace("-", "_")`-style single-character replacement. -/
def strReplCh (s : String) (a b : Char) : String :=
  String.mk (s.data.map (fun c => if c = a then b else c))

/-- Python `s.rsplit(".", 1)`: `some (before, after)` split at the last
dot when the string contains a dot, `none` otherwise (Python then returns
the one-element list `[s]`). -/
def rsplitDot (s : String) : Option (String × String) :=
  let parts := splitCh '.' s
  if parts.length ≥ 2 then
    some (joinWith "." parts.dropLast, parts.getLastD "")
  else
    none

/-- Fuel-indexed matcher for the general wildcard branch (the fuel makes
the recursion structural so that it reduces in the kernel; every step
strictly decreases `p.length + s.length`, so starting the fuel above that
sum the `0` case is unreachable). -/
def globNDAux : Nat → List Char → List Char → Bool
  | 0, _, _ => false
  | fuel + 1, p, s =>
    match p, s with
    | [], [] => true
    | [], _ :: _ => false
    | '*' :: ps, [] => globNDAux fuel ps []
    | '*' :: ps, c :: cs =>
      globNDAux fuel ps (c :: cs) || (c != '.' && globNDAux fuel ('*' :: ps) cs)
    | _ :: _, [] => false
    | p1 :: ps, c :: cs => p1 == c && globNDAux fuel ps cs

/-- Glob matching used for the general wildcard branch: the source builds
the regex `pattern.replace(".", "\\.").replace("*", "[^.]*")`, i.e. `*`
matches any run of non-dot characters and every other pattern character is
literal (references contain only word characters, dots and stars, so no
other regex metacharacter arises). -/
def globND (p s : List Char) : Bool :=
  globNDAux (p.length + s.length + 1) p s

/-- Fuel-indexed matcher for the module-level wildcard branch. -/
def globAnyAux : Nat → List Char → List Char → Bool
  | 0, _, _ => false
  | fuel + 1, p, s =>
    match p, s with
    | [], [] => true
    | [], _ :: _ => false
    | '*' :: ps, [] => globAnyAux fuel ps []
    | '*' :: ps, c :: cs => globAnyAux fuel ps (c :: cs) || globAnyAux fuel ('*' :: ps) cs
    | _ :: _, [] => false
    | p1 :: ps, c :: cs => p1 == c && globAnyAux fuel ps cs

/-- Glob matching used by the module-level wildcard branch: the source
builds `module_pattern.replace("*", ".*")`, i.e. `*` matches any run of
characters (the matched text is separately required to contain no dot)
and every other character is literal. -/
def globAny (p s : List Char) : Bool :=
  globAnyAux (p.length + s.length + 1) p s

/-- Single model definition (`ModelDef` in `model_pack.py`). -/
structure ModelDef where
  id : String
  url : String
  path : String
  description : String
  source_module : String
deriving DecidableEq, Repr

/-- Group definition (`GroupDef` in `model_pack.py`). -/
structure GroupDef where
  id : String
  description : String
  includes : List String
  source_module : String
deriving DecidableEq, Repr

/-- A fully resolved group (`ResolvedGroup` in `model_pack.py`). -/
structure ResolvedGroup where
  id : String
  description : String
  models : List ModelDef
deriving DecidableEq, Repr

/-- The registry state of `ModelPackRegistry`: four insertion-ordered
dictionaries. -/
structure Registry where
  models : List (String × ModelDef)
  groups : List (String × GroupDef)
  module_models : List (String × List String)
  packages : List (String × List String)
deriving DecidableEq, Repr

/-- The empty registry (a freshly constructed `ModelPackRegistry`). -/
def emptyReg : Registry := ⟨[], [], [], []⟩

/-- Python `d[k] = v` on an insertion-ordered dict: update the existing
key in place, or append a fresh key at the end. -/
def dictInsert (k : String) (v : α) : List (String × α) → List (String × α)
  | [] => [(k, v)]
  | (k1, v1) :: rest => if k1 = k then (k, v) :: rest else (k1, v1) :: dictInsert k v rest

/-- Qualified id of a model: `f"{model.source_module}.{model.id}"`. -/
def qid (m : ModelDef) : String :=
  m.source_module ++ "." ++ m.id

/-- Python `ModelPackRegistry.list_models(module_name)` for a given module:
the models of the module in insertion order.  (The source indexes
`self._models[f"{module_name}.{mid}"]`, which would raise `KeyError` on a
missing key; registries produced by loading never have one, and the
embedding drops such entries.) -/
def list_models (reg : Registry) (module_name : String) : List ModelDef :=
  ((reg.module_models.lookup module_name).getD []).filterMap
    (fun mid => reg.models.lookup (module_name ++ "." ++ mid))

/-- The suffix-search candidates of `get_model`: models whose qualified id
ends in `"." + simple_id` where `simple_id` is the last dot-segment of the
reference, in dictionary iteration order. -/
def modelSuffixMatches (reg : Registry) (ref : String) : List ModelDef :=
  (reg.models.filter (fun p => strEnds p.1 ("." ++ lastSeg ref))).map (fun p => p.2)

/-- The suffix-search candidates of `get_group`. -/
def groupSuffixMatches (reg : Registry) (ref : String) : List GroupDef :=
  (reg.groups.filter (fun p => strEnds p.1 ("." ++ lastSeg ref))).map (fun p => p.2)

/-- Python `ModelPackRegistry.get_model(ref, context_module)`.  An empty
context string is falsy in Python, hence behaves like `None`. -/
def get_model (reg : Registry) (ref : String) (ctx : Option String) : Option ModelDef :=
  match reg.models.lookup ref with
  | some m => some m
  | none =>
    let viaCtx : Option ModelDef :=
      match ctx with
      | some c =>
        if c ≠ "" && !hasChar ref '.' then reg.models.lookup (c ++ "." ++ ref) else none
      | none => none
    match viaCtx with
    | some m => some m
    | none =>
      match modelSuffixMatches reg ref with
      | [m] => some m
      | _ => none

/-- Python `ModelPackRegistry.get_group(ref, context_module)`. -/
def get_group (reg : Registry) (ref : String) (ctx : Option String) : Option GroupDef :=
  match reg.groups.lookup ref with
  | some g => some g
  | none =>
    let viaCtx : Option GroupDef :=
      match ctx with
      | some c =>
        if c ≠ "" && !hasChar ref '.' then reg.groups.lookup (c ++ "." ++ ref) else none
      | none => none
    match viaCtx with
    | some g => some g
    | none =>
      match groupSuffixMatches reg ref with
      | [g] => some g
      | _ => none

/-- The general wildcard branch of `_match_wildcard`: the compiled regex
(dots literal, `*` a run of non-dot characters) matched against the union
of all qualified model ids, group ids and module names, in that order. -/
def generalWildcard (reg : Registry) (pattern : String) : List String :=
  let allIds := reg.models.map (fun p => p.1) ++ reg.groups.map (fun p => p.1)
    ++ reg.module_models.map (fun p => p.1)
  allIds.filter (fun i => globND pattern.data i.data)

/-- Python `ModelPackRegistry._match_wildcard(pattern)`. -/
def match_wildcard (reg : Registry) (pattern : String) : List String :=
  if !hasChar pattern '*' then [pattern]
  else if strEnds pattern ".*" then
    if (reg.packages.lookup (strDropRight pattern 2)).isSome then
      (reg.module_models.map (fun p => p.1)).filter
        (fun m => strStarts m (strDropRight pattern 2 ++ "."))
    else if (reg.module_models.lookup (strDropRight pattern 2)).isSome then
      ((reg.module_models.lookup (strDropRight pattern 2)).getD []).map
        (fun mid => strDropRight pattern 2 ++ "." ++ mid)
    else
      generalWildcard reg pattern
  else if !strHas pattern ".*" && hasChar pattern '*' then
    match rsplitDot pattern with
    | some (pack, modPat) =>
      if (reg.packages.lookup pack).isSome && hasChar modPat '*' then
        if ((reg.module_models.map (fun p => p.1)).filter (fun m =>
              strStarts m (pack ++ ".") &&
                (!hasChar (strDrop m (strLen pack + 1)) '.'
                  && globAny modPat.data (strDrop m (strLen pack + 1)).data))).isEmpty then
          generalWildcard reg pattern
        else
          (reg.module_models.map (fun p => p.1)).filter (fun m =>
            strStarts m (pack ++ ".") &&
              (!hasChar (strDrop m (strLen pack + 1)) '.'
                && globAny modPat.data (strDrop m (strLen pack + 1)).data))
      else generalWildcard reg pattern
    | none => generalWildcard reg pattern
  else
    generalWildcard reg pattern

/-- The visited-set key of a resolution call:
`f"{context_module or ''}:{ref}"`. -/
def refKey (ctx : Option String) (ref : String) : String :=
  ctx.getD "" ++ ":" ++ ref

/-- The deduplication loop shared by the wildcard branch, `resolve_group`
and `resolve_multiple`: append each model whose qualified id has not been
seen, recording seen qualified ids. -/
def dedupInto : List ModelDef → List String → List ModelDef → List ModelDef × List String
  | all, seen, [] => (all, seen)
  | all, seen, m :: ms =>
    if qid m ∈ seen then dedupInto all seen ms
    else dedupInto (all ++ [m]) (qid m :: seen) ms

/-- The `for`-loop shared by the wildcard branch of `resolve_reference`
and by `resolve_group`: resolve each reference with the given resolver
(threading the mutable visited set through every call) and accumulate the
results, deduplicating by qualified id. -/
def foldResolve (resolve : String → Option String → List String → List ModelDef × List String)
    (ctx : Option String) :
    List String → List ModelDef → List String → List String → List ModelDef × List String
  | [], all, _, vis => (all, vis)
  | r :: rs, all, seen, vis =>
    let p := resolve r ctx vis
    let q := dedupInto all seen p.1
    foldResolve resolve ctx rs q.1 q.2 p.2

/-- One evaluation step of `ModelPackRegistry.resolve_reference`, with
the recursive continuation abstracted as `sub`: check the visited set,
add the key, then try in order the wildcard branch, the exact module
name, `get_model`, `get_group` (expanding the group's includes with the
group's own module as context), and the context-relative module lookup. -/
def resolveStep (reg : Registry)
    (sub : String → Option String → List String → List ModelDef × List String)
    (ref : String) (ctx : Option String) (vis : List String) : List ModelDef × List String :=
  if refKey ctx ref ∈ vis then ([], vis)
  else
    if hasChar ref '*' then
      foldResolve sub ctx (match_wildcard reg ref) [] [] (refKey ctx ref :: vis)
    else if (reg.module_models.lookup ref).isSome then
      (list_models reg ref, refKey ctx ref :: vis)
    else
      match get_model reg ref ctx with
      | some m => ([m], refKey ctx ref :: vis)
      | none =>
        match get_group reg ref ctx with
        | some g =>
          foldResolve sub (some g.source_module) g.includes [] [] (refKey ctx ref :: vis)
        | none =>
          match ctx with
          | some c =>
            if c ≠ "" && !hasChar ref '.' then
              if (reg.module_models.lookup (headSeg c ++ "." ++ ref)).isSome then
                (list_models reg (headSeg c ++ "." ++ ref), refKey ctx ref :: vis)
              else ([], refKey ctx ref :: vis)
            else ([], refKey ctx ref :: vis)
          | none => ([], refKey ctx ref :: vis)

/-- Fuel-indexed embedding of `ModelPackRegistry.resolve_reference`.
The Python function recurses without a structural bound (its termination
is exactly what the visited set guarantees and is proved below), so the
embedding consumes one unit of fuel per nested call and returns the pair
(result list, updated visited set); the fuel-independence theorem below
shows the result does not depend on the fuel once the fuel exceeds
`fuelBound`. -/
def resolveRefF (reg : Registry) : Nat → String → Option String → List String →
    List ModelDef × List String
  | 0, _, _, vis => ([], vis)
  | fuel + 1, ref, ctx, vis =>
    resolveStep reg (fun r c v => resolveRefF reg fuel r c v) ref ctx vis

/-- All context modules that can appear in a nested resolution call
starting from context `ctx`: the starting context itself and the source
module of every group. -/
def ctxCands (reg : Registry) (ctx : Option String) : List (Option String) :=
  ctx :: reg.groups.map (fun p => some p.2.source_module)

/-- All reference strings that can appear in a nested resolution call
starting from reference `ref`: the starting reference itself, every
qualified model id, group id and module name, every module-qualified
model id, and every include entry of every group. -/
def refCands (reg : Registry) (ref : String) : List String :=
  ref :: (reg.models.map (fun p => p.1) ++ reg.groups.map (fun p => p.1)
    ++ reg.module_models.map (fun p => p.1)
    ++ reg.module_models.flatMap (fun p => p.2.map (fun mid => p.1 ++ "." ++ mid))
    ++ reg.groups.flatMap (fun p => p.2.includes))

/-- The finite universe of visited-set keys reachable from a resolution
call with reference `ref` and context `ctx`. -/
def keyCands (reg : Registry) (ref : String) (ctx : Option String) : List String :=
  (ctxCands reg ctx).flatMap (fun c => (refCands reg ref).map (fun r => refKey c r))

/-- A fuel amount that provably suffices for `resolveRefF`: one more than
the number of universe keys not yet visited. -/
def fuelBound (reg : Registry) (ref : String) (ctx : Option String) (vis : List String) : Nat :=
  ((keyCands reg ref ctx).filter (fun k => !vis.contains k)).length + 1

/-- Python `ModelPackRegistry.resolve_reference(ref, context_module)`
with a fresh visited set (the entry point used by `resolve_to_group`). -/
def resolve_reference (reg : Registry) (ref : String) (ctx : Option String) : List ModelDef :=
  (resolveRefF reg (fuelBound reg ref ctx []) ref ctx []).1

/-- Python `ModelPackRegistry.resolve_group(group, visited)`. -/
def resolve_group (reg : Registry) (g : GroupDef) (visited : List String) : List ModelDef :=
  (foldResolve (fun r c v => resolveRefF reg (fuelBound reg "" (some g.source_module) visited) r c v)
    (some g.source_module) g.includes [] [] visited).1

/-- Python `ModelPackRegistry.resolve_to_group(ref)`. -/
def resolve_to_group (reg : Registry) (ref : String) : ResolvedGroup :=
  let models := resolve_reference reg ref none
  match get_group reg ref none with
  | some g => ⟨g.source_module ++ "." ++ g.id, g.description, models⟩
  | none =>
    match get_model reg ref none with
    | some m =>
      ⟨m.source_module ++ "." ++ m.id,
        m.description ++ "url: " ++ m.url ++ "\n   path: " ++ m.path, models⟩
    | none =>
      if (reg.module_models.lookup ref).isSome then
        ⟨ref, "All models from module: " ++ ref, models⟩
      else if hasChar ref '*' then
        ⟨ref, "Wildcard pattern: " ++ ref, models⟩
      else
        ⟨ref, "Resolved reference: " ++ ref, models⟩

/-- Python `ModelPackRegistry._identify_ref_type(ref)`. -/
def identify_ref_type (reg : Registry) (ref : String) : String :=
  if hasChar ref '*' then "wildcard pattern"
  else if (reg.module_models.lookup ref).isSome then "module"
  else if (get_group reg ref none).isSome then "group"
  else if (get_model reg ref none).isSome then "model"
  else if (reg.packages.lookup ref).isSome then "package"
  else "unknown"

/-- Python `ModelPackRegistry.resolve_multiple(refs)`: the combined
deduplicated group together with the per-reference
`(ref, ref_type, model_count)` report. -/
def resolve_multiple (reg : Registry) (refs : List String) :
    ResolvedGroup × List (String × String × Nat) :=
  let step := fun (acc : List ModelDef × List String × List (String × String × Nat))
      (ref : String) =>
    let resolved := resolve_to_group reg ref
    let p := dedupInto acc.1 acc.2.1 resolved.models
    (p.1, p.2, acc.2.2 ++ [(ref, identify_ref_type reg ref, resolved.models.length)])
  let r := refs.foldl step ([], [], [])
  let combined_id :=
    if refs.length > 1 then joinWith " + " refs
    else match refs with
      | [] => "empty"
      | r0 :: _ => r0
  let combined_description :=
    if refs.length > 1 then "Combined group: " ++ joinWith ", " refs
    else match r.2.2 with
      | [] => "No targets"
      | info :: _ => info.2.1
  (⟨combined_id, combined_description, r.1⟩, r.2.2)

/-- Module-name normalisation at the top of `load_from_dict`: ensure the
module name starts with the root marker `"."`. -/
def normModule (module_name : String) : String :=
  if strStarts module_name "." then module_name else "." ++ module_name

/-- Python `module_name.rsplit(".", 1)[-2] + "."`: the parent package of a
module name.  (On a string without a dot the Python expression raises
`IndexError`; that is unreachable because every module name starts with
`"."`, and the embedding then yields `"."`.) -/
def parentPackage (module_name : String) : String :=
  joinWith "." (splitCh '.' module_name).dropLast ++ "."

/-- The `while` loop of `_track_module_package`, walking up the package
chain until it reaches an already-tracked package or the root `"."`.
Each step removes one dot-segment from the parent, so the number of
characters bounds the number of iterations. -/
def trackPackagesAux : Nat → List (String × List String) → String → String →
    List (String × List String)
  | 0, pkgs, _, _ => pkgs
  | f + 1, pkgs, parent, child =>
    match pkgs.lookup parent with
    | some inners => dictInsert parent (inners ++ [child]) pkgs
    | none =>
      let pkgs1 := dictInsert parent [child] pkgs
      if parent = "." then pkgs1
      else trackPackagesAux f pkgs1 (parentPackage (strDropRight parent 1)) parent

/-- Python `ModelPackRegistry._track_module_package(module_name)` acting
on the `_packages` dict. -/
def track_module_package (pkgs : List (String × List String)) (module_name : String) :
    List (String × List String) :=
  trackPackagesAux (strLen module_name + 1) pkgs (parentPackage module_name) module_name

/-- Python `ModelPackRegistry._infer_path_from_url(url, filename)`. -/
def infer_path_from_url (url filename : String) : String :=
  let url_lower := strLower url
  if strHas url_lower "/vae/" || strHas (strReplCh url_lower '-' '_') "_vae" then
    "models/vae/" ++ filename
  else if strHas url_lower "/text_encoder" || strHas url_lower "text_enc" then
    "models/text_encoders/" ++ filename
  else if strHas url_lower "/diffusion_model" then
    "models/diffusion_models/" ++ filename
  else if strHas url_lower "/lora" then
    "models/loras/" ++ filename
  else if strHas url_lower "/upscale" || strHas url_lower "esrgan" then
    "models/upscale_models/" ++ filename
  else if strHas url_lower "/checkpoint" then
    "models/checkpoints/" ++ filename
  else if strHas url_lower "onnx" || strHas url_lower "/det/" then
    "models/onnx/" ++ filename
  else if strHas url_lower "/controlnet" then
    "models/controlnet/" ++ filename
  else if strHas url_lower "/model_patches" then
    "models/model_patches/" ++ filename
  else
    "models/checkpoints/" ++ filename

/-- A parsed YAML model entry: the `url` / `path` / `description` fields
with Python `.get(..., "")` defaults already applied. -/
structure ModelEntry where
  url : String
  path : String
  description : String
deriving DecidableEq, Repr

/-- A parsed YAML group entry. -/
structure GroupEntry where
  description : String
  includes : List String
deriving DecidableEq, Repr

/-- Python `ModelPackRegistry._parse_model_entry(entry, model_id,
module_name)` (for an entry already merged into dict form). -/
def parse_model_entry (entry : ModelEntry) (model_id module_name : String) : ModelDef :=
  let url := entry.url
  let path0 := entry.path
  let path :=
    if path0 = "" && url ≠ "" then
      infer_path_from_url url ((splitCh '/' url).getLastD "")
    else path0
  ⟨model_id, url, path, entry.description, module_name⟩

/-- The `models:` section of a catalog file: either a mapping
`{id: entry}` or a list of entries each carrying an optional `id` field
(the list form is accepted by `_load_pack_file` only). -/
inductive ModelsSection where
  | dictFmt : List (String × ModelEntry) → ModelsSection
  | listFmt : List (Option String × ModelEntry) → ModelsSection
deriving DecidableEq, Repr

/-- Parsed catalog-file data: the optional `models:` and `groups:`
sections. -/
structure PackData where
  models : ModelsSection
  groups : List (String × GroupEntry)
deriving DecidableEq, Repr

/-- Record one model in `_models` and `_module_models`, as both loading
paths do. -/
def addModel (reg : Registry) (module_name model_id : String) (entry : ModelEntry) : Registry :=
  let qualified := module_name ++ "." ++ model_id
  let md := parse_model_entry entry model_id module_name
  { reg with
    models := dictInsert qualified md reg.models
    module_models :=
      dictInsert module_name (((reg.module_models.lookup module_name).getD []) ++ [model_id])
        reg.module_models }

/-- Python `ModelPackRegistry.load_from_dict(data, module_name)`.  Note
that this path performs no duplicate-id check, and that the list form of
the `models:` section is silently ignored (the `isinstance(..., dict)`
guard fails and there is no list branch here, unlike `_load_pack_file`). -/
def load_from_dict (reg : Registry) (data : PackData) (module_name : String) : Registry :=
  let m := normModule module_name
  let reg1 := { reg with module_models := dictInsert m [] reg.module_models }
  let reg2 := { reg1 with packages := track_module_package reg1.packages m }
  let reg3 :=
    match data.models with
    | ModelsSection.dictFmt entries =>
      entries.foldl (fun r p => addModel r m p.1 p.2) reg2
    | ModelsSection.listFmt _ => reg2
  data.groups.foldl
    (fun r p =>
      { r with groups := dictInsert (m ++ "." ++ p.1) ⟨p.1, p.2.description, p.2.includes, m⟩ r.groups })
    reg3

/-- The model-section processing of `_load_pack_file` (both the dict and
the list form; list entries without an `id` are skipped). -/
def loadPackModels (reg : Registry) (data : PackData) (module_name : String) : Registry :=
  let reg1 := { reg with module_models := dictInsert module_name [] reg.module_models }
  let reg2 := { reg1 with packages := track_module_package reg1.packages module_name }
  match data.models with
  | ModelsSection.dictFmt entries =>
    entries.foldl (fun r p => addModel r module_name p.1 p.2) reg2
  | ModelsSection.listFmt entries =>
    entries.foldl
      (fun r p =>
        match p.1 with
        | some model_id => addModel r module_name model_id p.2
        | none => r)
      reg2

/-- The group-section processing of `_load_pack_file`: raises
`ModelPackError` when a group's qualified id is already a model id. -/
def loadPackGroups (reg : Registry) (module_name : String) :
    List (String × GroupEntry) → Except String Registry
  | [] => Except.ok reg
  | (group_id, entry) :: rest =>
    let qualified := module_name ++ "." ++ group_id
    if (reg.models.lookup qualified).isSome then
      Except.error ("Duplicate ID " ++ group_id ++ " in " ++ module_name ++
        ": model and group cannot have the same ID")
    else
      loadPackGroups
        { reg with groups := dictInsert qualified ⟨group_id, entry.description, entry.includes, module_name⟩ reg.groups }
        module_name rest

/-- The pure core of `ModelPackRegistry._load_pack_file`, acting on
already-parsed YAML data (`module_name` is the `_path_to_module` result,
always rooted at `"."`). -/
def load_pack_data (reg : Registry) (data : PackData) (module_name : String) :
    Except String Registry :=
  let reg1 := loadPackModels reg data module_name
  loadPackGroups reg1 module_name data.groups

/-- Well-formedness of a registry, as established by the loading paths:
for every module, the module-qualified ids of its id list are pairwise
distinct, and each stored model found under such a qualified id has that
id as its own qualified id. -/
def wfRegB (reg : Registry) : Bool :=
  reg.module_models.all (fun p =>
    decide ((p.2.map (fun mid => p.1 ++ "." ++ mid)).Nodup) &&
    p.2.all (fun mid =>
      match reg.models.lookup (p.1 ++ "." ++ mid) with
      | some m => qid m == p.1 ++ "." ++ mid
      | none => true))

/-!
Download backends (`comani/utils/download.py`).  File contents are
modelled as strings (one character per byte); the destination file of a
`download_file` call is the single piece of file-system state, modelled
as `Option String` (`none` = the file does not exist).
-/

/-- Python `is_html_content(data)`: the data starts with an HTML document
marker. -/
def is_html_content (data : String) : Bool :=
  strStarts data "<!DOCTYPE" || strStarts data "<html"

/-- Size of the destination file (`RequestsDownloader.file_size`:
`stat().st_size` when the file exists, else 0). -/
def fileSizeFs (fs : Option String) : Nat :=
  match fs with
  | some content => strLen content
  | none => 0

/-- Python `BaseDownloader.is_html_file(path)`: read the first 50 bytes
and test for an HTML marker; any read failure (e.g. a missing file) gives
`False`. -/
def isHtmlFs (fs : Option String) : Bool :=
  match fs with
  | some content => is_html_content (strTake content 50)
  | none => false

/-- Result of `BaseDownloader.validate_and_prepare`: the returned
`(existing_size, total_size, should_download)` triple plus whether the
existing file was deleted along the way. -/
structure VPrep where
  existing : Nat
  total : Nat
  shouldDownload : Bool
  deleted : Bool
deriving DecidableEq, Repr

/-- Python `BaseDownloader.validate_and_prepare(out_path, url, headers,
total_size)`, shared by both backends.  `existing0` and `isHtml0` are the
backend's `file_size` / `is_html_file` observations of the destination,
and `urlSize` is what `get_url_size` would report (only consulted when the
caller passed `total_size == 0`). -/
def validate_and_prepare (existing0 : Nat) (isHtml0 : Bool) (urlSize total_size : Nat) : VPrep :=
  let total := if total_size = 0 then urlSize else total_size
  let del1 := decide (existing0 > 0) && isHtml0
  let existing1 := if del1 then 0 else existing0
  let del2 := decide (total > 0) && decide (existing1 > total)
  let existing2 := if del2 then 0 else existing1
  if total > 0 && existing2 == total then ⟨existing2, total, false, del1 || del2⟩
  else ⟨existing2, total, true, del1 || del2⟩

/-- The response of the HTTP server to the single streaming GET issued by
`RequestsDownloader.download_file`. -/
structure HttpResponse where
  status : Nat
  contentLength : Nat
  body : String
deriving DecidableEq, Repr

/-- Outcome of a `RequestsDownloader.download_file` call: the returned
boolean, the final state of the destination file, and the `Range` headers
of the content GET requests that were issued (at most one; empty when the
call short-circuited without any transfer). -/
structure DlOutcome where
  ok : Bool
  fs : Option String
  rangesSent : List (Option String)
deriving DecidableEq, Repr

/-- Python `RequestsDownloader.download_file(url, out_path, headers,
total_size)`.  `server` maps the optional `Range` request header to the
response; network exceptions and the progress bar are outside the model
(an exception would take the `except` branch and return `False`, and the
source's reassignment of `total_size` from the response content-length
on a fresh download feeds only the progress bar, so it is dropped). -/
def requests_download_file (server : Option String → HttpResponse) (fs0 : Option String)
    (urlSize total_size : Nat) : DlOutcome :=
  let v := validate_and_prepare (fileSizeFs fs0) (isHtmlFs fs0) urlSize total_size
  let fs1 : Option String := if v.deleted then none else fs0
  if !v.shouldDownload then ⟨true, fs1, []⟩
  else
    let rangeH : Option String :=
      if v.existing > 0 then some ("bytes=" ++ toString v.existing ++ "-") else none
    let r := server rangeH
    if r.status = 416 then ⟨true, fs1, [rangeH]⟩
    else if r.status ≥ 400 then ⟨false, fs1, [rangeH]⟩
    else
      let newContent :=
        if v.existing > 0 then ((fs1.getD "") ++ r.body) else r.body
      if isHtmlFs (some newContent) then ⟨false, none, [rangeH]⟩
      else ⟨true, some newContent, [rangeH]⟩

/-- Python `Aria2Downloader.file_size(path)`: the `stat`-based
implementation is commented out in the source and the method
unconditionally returns 0 (with a TODO acknowledging the gap). -/
def aria2_file_size : Nat := 0

/-- The environment of an `Aria2Downloader.download_file` call: whether
spawning aria2c yielded a pid, the destination file before the call and
after the external process exited, and the captured aria2 log text. -/
structure Aria2Env where
  startOk : Bool
  initialContent : Option String
  finalContent : Option String
  logText : String
deriving DecidableEq, Repr

/-- Outcome of an `Aria2Downloader.download_file` call: the returned
boolean and whether the captured aria2 log was surfaced in the error
diagnostics. -/
structure Aria2Outcome where
  ok : Bool
  loggedUtilityLog : Bool
deriving DecidableEq, Repr

/-- Python `Aria2Downloader.download_file(url, out_path, headers,
total_size)`, with the polling loop abstracted to "the external process
runs and exits" (the tqdm progress machinery is omitted; it only renders
output, except that with `total_size > 0` and no parsed progress line the
final `pbar.update` would raise on `None` — in every non-raising
execution the epilogue runs as modelled).  Both `existing_size` reads and
the final `final_size` read go through `Aria2Downloader.file_size`, which
returns 0. -/
def aria2_download_file (env : Aria2Env) (urlSize total_size : Nat) : Aria2Outcome :=
  let v := validate_and_prepare aria2_file_size (isHtmlFs env.initialContent) urlSize total_size
  if !v.shouldDownload then ⟨true, false⟩
  else if !env.startOk then ⟨false, false⟩
  else
    let final_size := aria2_file_size
    if final_size = 0 || (decide (v.total > 0) && decide (final_size < v.total))
        || isHtmlFs env.finalContent then
      ⟨false, true⟩
    else
      ⟨true, false⟩

/-!
Analysis layer: generic lemmas about the association-list and
deduplication primitives, and the termination argument for
`resolveRefF`.
-/

/-- An association-list lookup hit is a member of the list. -/
theorem lookup_mem {α : Type} (l : List (String × α)) (k : String) (v : α)
    (h : l.lookup k = some v) : (k, v) ∈ l := by
  induction l with
  | nil => simp [List.lookup] at h
  | cons p rest ih =>
    obtain ⟨k1, v1⟩ := p
    rw [List.lookup] at h
    cases hk : k == k1 with
    | true =>
      rw [hk] at h
      simp only [Option.some.injEq] at h
      have hkk : k = k1 := by simpa using hk
      simp [hkk, h]
    | false =>
      rw [hk] at h
      exact List.mem_cons_of_mem _ (ih h)

/-- Filtering with a stronger predicate yields a shorter list. -/
theorem filterLengthMono {α : Type} {p q : α → Bool} (h : ∀ x, q x = true → p x = true) :
    ∀ K : List α, (K.filter q).length ≤ (K.filter p).length := by
  intro K
  induction K with
  | nil => simp
  | cons x xs ih =>
    by_cases hq : q x = true
    · rw [List.filter_cons_of_pos hq, List.filter_cons_of_pos (h x hq)]
      simpa using ih
    · rw [List.filter_cons_of_neg (by simpa using hq)]
      by_cases hp : p x = true
      · rw [List.filter_cons_of_pos hp]
        exact Nat.le_succ_of_le ih
      · rw [List.filter_cons_of_neg (by simpa using hp)]
        exact ih

/-- Filtering with a strictly stronger predicate (witnessed by a member
where they differ) yields a strictly shorter list. -/
theorem filterLengthLt {α : Type} {p q : α → Bool} (a : α)
    (hq : ∀ x, q x = true → p x = true) (hpa : p a = true) (hqa : q a = false) :
    ∀ K : List α, a ∈ K → (K.filter q).length < (K.filter p).length := by
  intro K
  induction K with
  | nil => intro h; cases h
  | cons x xs ih =>
    intro hmem
    by_cases hax : x = a
    · subst hax
      rw [List.filter_cons_of_pos hpa, List.filter_cons_of_neg (by simp [hqa])]
      exact Nat.lt_succ_of_le (filterLengthMono hq xs)
    · have hxs : a ∈ xs := by
        rcases List.mem_cons.mp hmem with h | h
        · exact absurd h.symm hax
        · exact h
      by_cases hqx : q x = true
      · rw [List.filter_cons_of_pos hqx, List.filter_cons_of_pos (hq x hqx)]
        simpa using ih hxs
      · rw [List.filter_cons_of_neg (by simpa using hqx)]
        by_cases hpx : p x = true
        · rw [List.filter_cons_of_pos hpx]
          exact Nat.lt_succ_of_lt (ih hxs)
        · rw [List.filter_cons_of_neg (by simpa using hpx)]
          exact ih hxs

/-- The number of universe keys not yet in the visited set: the measure
that bounds the recursion depth of `resolveRefF`. -/
def countUnvisited (K vis : List String) : Nat :=
  (K.filter (fun k => !vis.contains k)).length

/-- Growing the visited set cannot increase the measure. -/
theorem countUnvisited_le_of_subset {vis vis1 : List String}
    (h : ∀ x, x ∈ vis → x ∈ vis1) (K : List String) :
    countUnvisited K vis1 ≤ countUnvisited K vis := by
  refine filterLengthMono (fun x hx => ?_) K
  simp only [Bool.not_eq_true', ← Bool.not_eq_true, List.elem_iff] at hx ⊢
  exact fun hm => hx (h x hm)

/-- Visiting a fresh universe key strictly decreases the measure. -/
theorem countUnvisited_cons_lt {K vis : List String} {key : String}
    (hK : key ∈ K) (hvis : key ∉ vis) :
    countUnvisited K (key :: vis) < countUnvisited K vis := by
  refine filterLengthLt key (fun x hx => ?_) ?_ ?_ K hK
  · simp only [Bool.not_eq_true', ← Bool.not_eq_true, List.elem_iff] at hx ⊢
    intro hm
    exact hx (List.mem_cons_of_mem _ hm)
  · simpa [List.elem_iff] using hvis
  · simp [List.elem_iff]

/-- First-occurrence deduplication by qualified id, relative to a set of
already-seen ids: the specification of the `seen_ids` loops. -/
def dedupFirst (seen : List String) : List ModelDef → List ModelDef
  | [] => []
  | m :: ms => if qid m ∈ seen then dedupFirst seen ms else m :: dedupFirst (qid m :: seen) ms

/-- The seen-set after first-occurrence deduplication. -/
def dedupSeen (seen : List String) : List ModelDef → List String
  | [] => seen
  | m :: ms => if qid m ∈ seen then dedupSeen seen ms else dedupSeen (qid m :: seen) ms

/-- `dedupInto` appends the first occurrences and extends the seen set. -/
theorem dedupInto_eq (ms : List ModelDef) : ∀ all seen,
    dedupInto all seen ms = (all ++ dedupFirst seen ms, dedupSeen seen ms) := by
  induction ms with
  | nil => intro all seen; simp [dedupInto, dedupFirst, dedupSeen]
  | cons m ms ih =>
    intro all seen
    by_cases h : qid m ∈ seen
    · simp [dedupInto, dedupFirst, dedupSeen, h, ih]
    · simp [dedupInto, dedupFirst, dedupSeen, h, ih, List.append_assoc]

/-- Membership in the seen-set after deduplication. -/
theorem dedupSeen_mem (ms : List ModelDef) : ∀ seen q,
    (q ∈ dedupSeen seen ms ↔ q ∈ seen ∨ q ∈ ms.map qid) := by
  induction ms with
  | nil => intro seen q; simp [dedupSeen]
  | cons m ms ih =>
    intro seen q
    by_cases h : qid m ∈ seen
    · rw [dedupSeen, if_pos h, ih]
      simp only [List.map_cons, List.mem_cons]
      by_cases hq : q = qid m
      · subst hq; simp [h]
      · simp [hq]
    · rw [dedupSeen, if_neg h, ih]
      simp only [List.map_cons, List.mem_cons]
      tauto

/-- Membership in the deduplicated list. -/
theorem dedupFirst_mem (ms : List ModelDef) : ∀ seen q,
    (q ∈ (dedupFirst seen ms).map qid ↔ q ∈ ms.map qid ∧ q ∉ seen) := by
  induction ms with
  | nil => intro seen q; simp [dedupFirst]
  | cons m ms ih =>
    intro seen q
    by_cases h : qid m ∈ seen
    · rw [dedupFirst, if_pos h, ih]
      simp only [List.map_cons, List.mem_cons]
      by_cases hq : q = qid m
      · subst hq; simp [h]
      · simp [hq]
    · rw [dedupFirst, if_neg h]
      simp only [List.map_cons, List.mem_cons, ih]
      by_cases hq : q = qid m
      · subst hq; simp [h]
      · simp [hq]

/-- The raw (non-deduplicated) expansion of a reference list: the
concatenation of the per-reference resolutions, with the visited set
threaded through exactly as in `foldResolve`. -/
def rawResolveList (resolve : String → Option String → List String → List ModelDef × List String)
    (ctx : Option String) : List String → List String → List ModelDef
  | [], _ => []
  | r :: rs, vis =>
    (resolve r ctx vis).1 ++ rawResolveList resolve ctx rs (resolve r ctx vis).2

/-- Deduplicating a concatenation: the second part is deduplicated
relative to the seen-set left by the first. -/
theorem dedupFirst_append (l1 : List ModelDef) : ∀ seen l2,
    dedupFirst seen (l1 ++ l2) = dedupFirst seen l1 ++ dedupFirst (dedupSeen seen l1) l2 := by
  induction l1 with
  | nil => intro seen l2; simp [dedupFirst, dedupSeen]
  | cons m ms ih =>
    intro seen l2
    by_cases h : qid m ∈ seen
    · simp [dedupFirst, dedupSeen, h, ih]
    · simp [dedupFirst, dedupSeen, h, ih]

/-- The result list of `foldResolve` is the accumulator followed by the
first occurrences of the raw expansion. -/
theorem foldResolve_fst
    (resolve : String → Option String → List String → List ModelDef × List String)
    (ctx : Option String) : ∀ rs all seen vis,
    (foldResolve resolve ctx rs all seen vis).1
      = all ++ dedupFirst seen (rawResolveList resolve ctx rs vis) := by
  intro rs
  induction rs with
  | nil => intro all seen vis; simp [foldResolve, rawResolveList, dedupFirst]
  | cons r rs ih =>
    intro all seen vis
    rw [foldResolve, rawResolveList]
    simp only [dedupInto_eq]
    rw [ih, dedupFirst_append, List.append_assoc]

/-- `foldResolve` only ever extends the visited set. -/
theorem foldResolve_suffix
    (resolve : String → Option String → List String → List ModelDef × List String)
    (ctx : Option String) (hres : ∀ r v, v <:+ (resolve r ctx v).2) :
    ∀ rs all seen vis, vis <:+ (foldResolve resolve ctx rs all seen vis).2 := by
  intro rs
  induction rs with
  | nil => intro all seen vis; simp [foldResolve]
  | cons r rs ih =>
    intro all seen vis
    rw [foldResolve]
    exact (hres r vis).trans (ih _ _ _)

/-- `resolveStep` only ever extends the visited set, provided the
continuation does. -/
theorem resolveStep_suffix (reg : Registry)
    (sub : String → Option String → List String → List ModelDef × List String)
    (hsub : ∀ r c v, v <:+ (sub r c v).2) (ref : String) (ctx : Option String)
    (vis : List String) : vis <:+ (resolveStep reg sub ref ctx vis).2 := by
  rw [resolveStep.eq_def]
  by_cases hk : refKey ctx ref ∈ vis
  · simp [hk]
  · rw [if_neg hk]
    have hcons : vis <:+ refKey ctx ref :: vis := List.suffix_cons _ _
    have hfold : ∀ c2 rs all seen,
        (refKey ctx ref :: vis)
          <:+ (foldResolve sub c2 rs all seen (refKey ctx ref :: vis)).2 :=
      fun c2 rs all seen => foldResolve_suffix _ c2 (fun r v => hsub r c2 v) rs all seen _
    split
    · exact hcons.trans (hfold _ _ _ _)
    · split
      · exact hcons
      · split
        · exact hcons
        · split
          · exact hcons.trans (hfold _ _ _ _)
          · split
            · split
              · split
                · exact hcons
                · exact hcons
              · exact hcons
            · exact hcons

/-- `resolveRefF` only ever extends the visited set. -/
theorem resolveRefF_suffix (reg : Registry) :
    ∀ fuel ref ctx vis, vis <:+ (resolveRefF reg fuel ref ctx vis).2 := by
  intro fuel
  induction fuel with
  | zero => intro ref ctx vis; simp [resolveRefF]
  | succ f ih =>
    intro ref ctx vis
    rw [resolveRefF]
    exact resolveStep_suffix reg _ (fun r c v => ih r c v) ref ctx vis

/-- The starting reference is among its own reference candidates. -/
theorem refCands_self (reg : Registry) (r : String) : r ∈ refCands reg r := by
  simp [refCands]

/-- The starting context is among its own context candidates. -/
theorem ctxCands_self (reg : Registry) (c : Option String) : c ∈ ctxCands reg c := by
  simp [ctxCands]

/-- Qualified model ids are reference candidates. -/
theorem refCands_of_models {reg : Registry} {r : String} (x : String)
    (h : r ∈ reg.models.map (fun p => p.1)) : r ∈ refCands reg x := by
  simp only [refCands, List.mem_cons, List.mem_append]
  tauto

/-- Qualified group ids are reference candidates. -/
theorem refCands_of_groups {reg : Registry} {r : String} (x : String)
    (h : r ∈ reg.groups.map (fun p => p.1)) : r ∈ refCands reg x := by
  simp only [refCands, List.mem_cons, List.mem_append]
  tauto

/-- Module names are reference candidates. -/
theorem refCands_of_modules {reg : Registry} {r : String} (x : String)
    (h : r ∈ reg.module_models.map (fun p => p.1)) : r ∈ refCands reg x := by
  simp only [refCands, List.mem_cons, List.mem_append]
  tauto

/-- Module-qualified model ids are reference candidates. -/
theorem refCands_of_moduleQualified {reg : Registry} {r : String} (x : String)
    (h : r ∈ reg.module_models.flatMap (fun p => p.2.map (fun mid => p.1 ++ "." ++ mid))) :
    r ∈ refCands reg x := by
  simp only [refCands, List.mem_cons, List.mem_append]
  tauto

/-- Group include entries are reference candidates. -/
theorem refCands_of_includes {reg : Registry} {r : String} (x : String)
    (h : r ∈ reg.groups.flatMap (fun p => p.2.includes)) : r ∈ refCands reg x := by
  simp only [refCands, List.mem_cons, List.mem_append]
  tauto

/-- Every result of `generalWildcard` is a reference candidate. -/
theorem generalWildcard_cands {reg : Registry} {p r : String} (x : String)
    (hr : r ∈ generalWildcard reg p) : r ∈ refCands reg x := by
  have hmem := List.mem_of_mem_filter hr
  rcases List.mem_append.mp hmem with hm | hm
  · rcases List.mem_append.mp hm with hm2 | hm2
    · exact refCands_of_models x hm2
    · exact refCands_of_groups x hm2
  · exact refCands_of_modules x hm

/-- Every result of `_match_wildcard` on a candidate pattern is again a
reference candidate: the wildcard expansion stays inside the finite
universe of registry-derived names. -/
theorem match_wildcard_cands {reg : Registry} {x p r : String}
    (hp : p ∈ refCands reg x) (hr : r ∈ match_wildcard reg p) : r ∈ refCands reg x := by
  rw [match_wildcard.eq_def] at hr
  split at hr
  · simp only [List.mem_singleton] at hr
    exact hr ▸ hp
  · split at hr
    · split at hr
      · exact refCands_of_modules x (List.mem_of_mem_filter hr)
      · split at hr
        · rename_i hsome _
          obtain ⟨mids, hmids⟩ := Option.isSome_iff_exists.mp (by assumption)
          rw [hmids] at hr
          simp only [Option.getD_some, List.mem_map] at hr
          obtain ⟨mid, hmid, rfl⟩ := hr
          refine refCands_of_moduleQualified x ?_
          simp only [List.mem_flatMap, List.mem_map]
          exact ⟨_, lookup_mem _ _ _ hmids, ⟨mid, hmid, rfl⟩⟩
        · exact generalWildcard_cands x hr
    · split at hr
      · split at hr
        · split at hr
          · split at hr
            · exact generalWildcard_cands x hr
            · exact refCands_of_modules x (List.mem_of_mem_filter hr)
          · exact generalWildcard_cands x hr
        · exact generalWildcard_cands x hr
      · exact generalWildcard_cands x hr

/-- Every group returned by `get_group` is stored in the registry. -/
theorem get_group_mem {reg : Registry} {ref : String} {ctx : Option String} {g : GroupDef}
    (h : get_group reg ref ctx = some g) : ∃ k, (k, g) ∈ reg.groups := by
  rw [get_group.eq_def] at h
  have hsfx : ∀ a, a ∈ groupSuffixMatches reg ref → ∃ k, (k, a) ∈ reg.groups := by
    intro a ha
    obtain ⟨pp, hpp, hpa⟩ := List.mem_map.mp ha
    refine ⟨pp.1, ?_⟩
    have := List.mem_of_mem_filter hpp
    rw [← hpa]
    simpa using this
  have hmatch : ∀ hm : (match groupSuffixMatches reg ref with
      | [g1] => some g1
      | _ => none) = some g, ∃ k, (k, g) ∈ reg.groups := by
    intro hm
    cases hsm : groupSuffixMatches reg ref with
    | nil => rw [hsm] at hm; cases hm
    | cons a tl =>
      cases tl with
      | nil =>
        rw [hsm] at hm
        simp only [Option.some.injEq] at hm
        exact hm ▸ hsfx a (by simp [hsm])
      | cons b tl2 => rw [hsm] at hm; cases hm
  cases hlook : reg.groups.lookup ref with
  | some g0 =>
    rw [hlook] at h
    simp only [Option.some.injEq] at h
    exact ⟨ref, h ▸ lookup_mem _ _ _ hlook⟩
  | none =>
    rw [hlook] at h
    cases ctx with
    | none => exact hmatch (by exact h)
    | some c =>
      dsimp only at h
      by_cases hc : (decide (c ≠ "") && !hasChar ref '.') = true
      · rw [if_pos hc] at h
        cases hlook2 : reg.groups.lookup (c ++ "." ++ ref) with
        | some g1 =>
          rw [hlook2] at h
          simp only [Option.some.injEq] at h
          exact ⟨c ++ "." ++ ref, h ▸ lookup_mem _ _ _ hlook2⟩
        | none =>
          rw [hlook2] at h
          exact hmatch h
      · rw [if_neg hc] at h
        exact hmatch h

/-- The key of a candidate call is in the key universe. -/
theorem refKey_mem_keyCands {reg : Registry} {ref0 ref : String} {ctx0 ctx : Option String}
    (hr : ref ∈ refCands reg ref0) (hc : ctx ∈ ctxCands reg ctx0) :
    refKey ctx ref ∈ keyCands reg ref0 ctx0 := by
  simp only [keyCands, List.mem_flatMap, List.mem_map]
  exact ⟨ctx, hc, ref, hr, rfl⟩

/-- Congruence for `foldResolve`: two resolvers that agree below the
measure bound produce identical folds (the first resolver must be
visited-monotone so the bound propagates along the fold). -/
theorem foldResolve_congr {K : List String} {c : Nat}
    (A B : String → Option String → List String → List ModelDef × List String)
    (ctx : Option String)
    (hsuf : ∀ r v, v <:+ (A r ctx v).2) :
    ∀ rs, (∀ r ∈ rs, ∀ v, countUnvisited K v ≤ c → A r ctx v = B r ctx v) →
    ∀ all seen vis, countUnvisited K vis ≤ c →
    foldResolve A ctx rs all seen vis = foldResolve B ctx rs all seen vis := by
  intro rs
  induction rs with
  | nil => intro _ all seen vis _; rfl
  | cons r rs ih =>
    intro hag all seen vis hcount
    have h1 : A r ctx vis = B r ctx vis := hag r (List.mem_cons_self _ _) vis hcount
    rw [foldResolve, foldResolve, ← h1]
    have hcount2 : countUnvisited K (A r ctx vis).2 ≤ c :=
      le_trans (countUnvisited_le_of_subset (fun x hx => (hsuf r vis).subset hx) K) hcount
    exact ih (fun r2 hr2 v hv => hag r2 (List.mem_cons_of_mem _ hr2) v hv) _ _ _ hcount2

/-- Fuel-independence of `resolveRefF` above the measure: the heart of
the termination argument.  Each non-trivial call consumes one unit of
fuel but also permanently adds a fresh key of the finite universe
`keyCands` to the visited set, so once the fuel exceeds the number of
unvisited universe keys the fuel no longer matters. -/
theorem resolveRefF_congr (reg : Registry) (ref0 : String) (ctx0 : Option String) :
    ∀ c f1 f2 ref ctx vis,
      ref ∈ refCands reg ref0 → ctx ∈ ctxCands reg ctx0 →
      countUnvisited (keyCands reg ref0 ctx0) vis ≤ c →
      c < f1 → c < f2 →
      resolveRefF reg f1 ref ctx vis = resolveRefF reg f2 ref ctx vis := by
  intro c
  induction c with
  | zero =>
    intro f1 f2 ref ctx vis href hctx hcount h1 h2
    obtain ⟨a, rfl⟩ : ∃ a, f1 = a + 1 := ⟨f1 - 1, by omega⟩
    obtain ⟨b, rfl⟩ : ∃ b, f2 = b + 1 := ⟨f2 - 1, by omega⟩
    rw [resolveRefF, resolveRefF, resolveStep.eq_def, resolveStep.eq_def]
    by_cases hk : refKey ctx ref ∈ vis
    · rw [if_pos hk, if_pos hk]
    · exfalso
      have hmem := refKey_mem_keyCands href hctx
      have := countUnvisited_cons_lt hmem hk
      omega
  | succ c ih =>
    intro f1 f2 ref ctx vis href hctx hcount h1 h2
    obtain ⟨a, rfl⟩ : ∃ a, f1 = a + 1 := ⟨f1 - 1, by omega⟩
    obtain ⟨b, rfl⟩ : ∃ b, f2 = b + 1 := ⟨f2 - 1, by omega⟩
    rw [resolveRefF, resolveRefF, resolveStep.eq_def, resolveStep.eq_def]
    by_cases hk : refKey ctx ref ∈ vis
    · rw [if_pos hk, if_pos hk]
    · rw [if_neg hk, if_neg hk]
      have hmem := refKey_mem_keyCands href hctx
      have hlt := countUnvisited_cons_lt hmem hk
      have hcount1 : countUnvisited (keyCands reg ref0 ctx0) (refKey ctx ref :: vis) ≤ c := by
        omega
      have ha : c < a := by omega
      have hb : c < b := by omega
      have hsufA : ∀ (c2 : Option String) r v,
          v <:+ (resolveRefF reg a r c2 v).2 := fun c2 r v => resolveRefF_suffix reg a r c2 v
      by_cases hstar : hasChar ref '*' = true
      · rw [if_pos hstar, if_pos hstar]
        exact foldResolve_congr _ _ ctx (fun r v => hsufA ctx r v) _
          (fun r hrm v hv =>
            ih a b r ctx v (match_wildcard_cands href hrm) hctx hv ha hb)
          [] [] _ hcount1
      · rw [if_neg hstar, if_neg hstar]
        by_cases hmod : (reg.module_models.lookup ref).isSome = true
        · rw [if_pos hmod, if_pos hmod]
        · rw [if_neg hmod, if_neg hmod]
          cases hgm : get_model reg ref ctx with
          | some m => rfl
          | none =>
            cases hgg : get_group reg ref ctx with
            | some g =>
              obtain ⟨k, hkg⟩ := get_group_mem hgg
              have hctx2 : some g.source_module ∈ ctxCands reg ctx0 := by
                simp only [ctxCands, List.mem_cons, List.mem_map]
                exact Or.inr ⟨(k, g), hkg, rfl⟩
              exact foldResolve_congr _ _ (some g.source_module)
                (fun r v => hsufA (some g.source_module) r v) _
                (fun r hrm v hv =>
                  ih a b r (some g.source_module) v
                    (refCands_of_includes ref0
                      (by
                        simp only [List.mem_flatMap]
                        exact ⟨(k, g), hkg, hrm⟩))
                    hctx2 hv ha hb)
                [] [] _ hcount1
            | none => rfl

/-- The deduplicated list has pairwise-distinct qualified ids, none of
them previously seen. -/
theorem dedupFirst_nodup (ms : List ModelDef) : ∀ seen,
    ((dedupFirst seen ms).map qid).Nodup ∧ ∀ q ∈ (dedupFirst seen ms).map qid, q ∉ seen := by
  induction ms with
  | nil => intro seen; simp [dedupFirst]
  | cons m ms ih =>
    intro seen
    by_cases h : qid m ∈ seen
    · rw [dedupFirst, if_pos h]
      exact ih seen
    · rw [dedupFirst, if_neg h]
      obtain ⟨hnd, hns⟩ := ih (qid m :: seen)
      refine ⟨?_, fun q hq => ?_⟩
      · simp only [List.map_cons, List.nodup_cons]
        exact ⟨fun hmem => (hns _ hmem) (List.mem_cons_self _ _), hnd⟩
      · simp only [List.map_cons, List.mem_cons] at hq
        rcases hq with he | hm2
        · exact he ▸ h
        · exact fun hs => (hns q hm2) (List.mem_cons_of_mem _ hs)

/-- Unfolding `resolveRefF` at positive fuel. -/
theorem resolveRefF_pos (reg : Registry) (f : Nat) (ref : String) (ctx : Option String)
    (vis : List String) (h : 0 < f) :
    resolveRefF reg f ref ctx vis
      = resolveStep reg (fun r c v => resolveRefF reg (f - 1) r c v) ref ctx vis := by
  obtain ⟨a, rfl⟩ : ∃ a, f = a + 1 := ⟨f - 1, by omega⟩
  rw [resolveRefF]
  simp

/-- `fuelBound` is always positive. -/
theorem fuelBound_pos (reg : Registry) (ref : String) (ctx : Option String)
    (vis : List String) : 0 < fuelBound reg ref ctx vis :=
  Nat.succ_pos _

/-- The result of a fold starting from empty accumulators has no
duplicate qualified id. -/
theorem foldResolve_qid_nodup
    (resolve : String → Option String → List String → List ModelDef × List String)
    (ctx : Option String) (rs : List String) (vis : List String) :
    (((foldResolve resolve ctx rs [] [] vis).1).map qid).Nodup := by
  rw [foldResolve_fst]
  simpa using (dedupFirst_nodup (rawResolveList resolve ctx rs vis) []).1

/-- A `filterMap` whose hits are determined by a key function is a
sublist of the mapped key list. -/
theorem filterMapMapSublist {α β γ : Type} (l : List α) (f : α → Option β) (g : β → γ)
    (k : α → γ) (h : ∀ a ∈ l, ∀ b, f a = some b → g b = k a) :
    ((l.filterMap f).map g).Sublist (l.map k) := by
  induction l with
  | nil => simp
  | cons a l2 ih =>
    have ih2 := ih (fun a2 ha2 b hb => h a2 (List.mem_cons_of_mem _ ha2) b hb)
    cases hfa : f a with
    | none =>
      rw [List.filterMap_cons_none hfa, List.map_cons]
      exact ih2.cons _
    | some b =>
      rw [List.filterMap_cons_some hfa, List.map_cons, List.map_cons,
        h a (List.mem_cons_self _ _) b hfa]
      exact ih2.cons₂ _

/-- In a well-formed registry, `list_models` yields pairwise-distinct
qualified ids. -/
theorem list_models_qid_nodup (reg : Registry) (m : String) (hwf : wfRegB reg = true) :
    ((list_models reg m).map qid).Nodup := by
  cases hlook : reg.module_models.lookup m with
  | none => simp [list_models, hlook]
  | some mids =>
    have hp := lookup_mem _ _ _ hlook
    rw [wfRegB, List.all_eq_true] at hwf
    have hmp := hwf _ hp
    rw [Bool.and_eq_true] at hmp
    obtain ⟨hnd0, hids⟩ := hmp
    have hnd : (mids.map (fun mid => m ++ "." ++ mid)).Nodup := of_decide_eq_true hnd0
    rw [List.all_eq_true] at hids
    refine List.Nodup.sublist ?_ hnd
    rw [list_models, hlook]
    simp only [Option.getD_some]
    refine filterMapMapSublist mids _ qid _ (fun mid hmid b hb => ?_)
    have hb2 := hids mid hmid
    simp only at hb2
    rw [hb] at hb2
    exact eq_of_beq hb2

/-- Every result list of `resolveStep` has pairwise-distinct qualified
ids (for a well-formed registry): singleton and empty branches are
trivial, fold branches deduplicate, and module branches are covered by
well-formedness. -/
theorem resolveStep_qid_nodup (reg : Registry)
    (sub : String → Option String → List String → List ModelDef × List String)
    (ref : String) (ctx : Option String) (vis : List String) (hwf : wfRegB reg = true) :
    (((resolveStep reg sub ref ctx vis).1).map qid).Nodup := by
  rw [resolveStep.eq_def]
  by_cases hk : refKey ctx ref ∈ vis
  · simp [hk]
  · rw [if_neg hk]
    split
    · exact foldResolve_qid_nodup _ _ _ _
    · split
      · exact list_models_qid_nodup reg ref hwf
      · split
        · simp
        · split
          · exact foldResolve_qid_nodup _ _ _ _
          · split
            · split
              · split
                · exact list_models_qid_nodup reg _ hwf
                · simp
              · simp
            · simp

/-- Every result list of `resolveRefF` has pairwise-distinct qualified
ids, for a well-formed registry. -/
theorem resolveRefF_qid_nodup (reg : Registry) (hwf : wfRegB reg = true) :
    ∀ fuel ref ctx vis, (((resolveRefF reg fuel ref ctx vis).1).map qid).Nodup := by
  intro fuel ref ctx vis
  cases fuel with
  | zero => simp [resolveRefF]
  | succ f =>
    rw [resolveRefF]
    exact resolveStep_qid_nodup reg _ ref ctx vis hwf

/-!
Claim theorems.
-/

/-- C1: `resolve_reference` terminates on every input, including cyclic
catalogs.  Formally: the fuel-indexed embedding is fuel-independent once
the fuel reaches `fuelBound` (one more than the number of unvisited keys
of the finite visited-key universe), so the recursion always bottoms out;
and a call whose `(context, ref)` key is already in the visited set
returns the empty list immediately without recursing. -/
theorem resolve_reference_terminates (reg : Registry) (ref : String) (ctx : Option String)
    (vis : List String) (f1 f2 : Nat)
    (h1 : fuelBound reg ref ctx vis ≤ f1) (h2 : fuelBound reg ref ctx vis ≤ f2) :
    resolveRefF reg f1 ref ctx vis = resolveRefF reg f2 ref ctx vis
    ∧ (refKey ctx ref ∈ vis → resolveRefF reg f1 ref ctx vis = ([], vis)) := by
  have hfb : fuelBound reg ref ctx vis
      = countUnvisited (keyCands reg ref ctx) vis + 1 := rfl
  constructor
  · exact resolveRefF_congr reg ref ctx (countUnvisited (keyCands reg ref ctx) vis)
      f1 f2 ref ctx vis (refCands_self reg ref) (ctxCands_self reg ctx)
      (le_refl _) (by omega) (by omega)
  · intro hk
    rw [resolveRefF_pos reg f1 ref ctx vis (by omega), resolveStep.eq_def, if_pos hk]

/-- A catalog with a reference cycle: module `.m` defines group `a`
including `[".m.b", ".m.m1"]` and group `b` including `[".m.a"]`, so `a`
and `b` include each other transitively. -/
def regCyc : Registry :=
  load_from_dict emptyReg
    ⟨ModelsSection.dictFmt [("m1", ⟨"u1", "models/loras/m1.bin", ""⟩)],
     [("a", ⟨"group a", [".m.b", ".m.m1"]⟩), ("b", ⟨"group b", [".m.a"]⟩)]⟩ "m"

/-- Witness for C1 on the cyclic catalog: the fuel bound holds at 28 and
40, resolution of the cyclic group gives the same (terminating) result at
both fuels, and a repeated `(context, ref)` pair returns `[]`
immediately. -/
theorem resolve_reference_terminates_witness :
    (fuelBound regCyc ".m.a" none [] ≤ 28 ∧ fuelBound regCyc ".m.a" none [] ≤ 40)
    ∧ resolveRefF regCyc 28 ".m.a" none [] = resolveRefF regCyc 40 ".m.a" none []
    ∧ resolveRefF regCyc 28 ".m.a" none [":.m.a"] = ([], [":.m.a"]) :=
  ⟨⟨by decide, by decide⟩,
    (resolve_reference_terminates regCyc ".m.a" none [] 28 40 (by decide) (by decide)).1,
    (resolve_reference_terminates regCyc ".m.a" none [":.m.a"] 28 40
      (by decide) (by decide)).2 (by decide)⟩

/-- The raw (pre-deduplication) expansion of a group: the concatenation
of the per-include resolutions, visited set threaded left to right. -/
def group_expansion (reg : Registry) (g : GroupDef) (visited : List String) : List ModelDef :=
  rawResolveList
    (fun r c v => resolveRefF reg (fuelBound reg "" (some g.source_module) visited) r c v)
    (some g.source_module) g.includes visited

/-- C3 (amended): `resolve_group` never yields two entries with the same
qualified id, and its output is exactly the first occurrences, in
first-seen order, of the raw includes expansion; and the models list of
every `ResolvedGroup` produced by `resolve_to_group` on a well-formed
registry (every module's id list duplicate-free and consistent — which
every mapping-format catalog satisfies) has no duplicate qualified id. -/
theorem resolve_group_qid_nodup (reg : Registry) (g : GroupDef) (visited : List String)
    (ref : String) (hwf : wfRegB reg = true) :
    ((resolve_group reg g visited).map qid).Nodup
    ∧ resolve_group reg g visited = dedupFirst [] (group_expansion reg g visited)
    ∧ (((resolve_to_group reg ref).models).map qid).Nodup := by
  have hmodels : (resolve_to_group reg ref).models = resolve_reference reg ref none := by
    rw [resolve_to_group.eq_def]
    split
    · rfl
    · split
      · rfl
      · split
        · rfl
        · split
          · rfl
          · rfl
  refine ⟨?_, ?_, ?_⟩
  · rw [resolve_group]
    exact foldResolve_qid_nodup _ _ _ _
  · rw [resolve_group, foldResolve_fst, group_expansion]
    simp
  · rw [hmodels, resolve_reference]
    exact resolveRefF_qid_nodup reg hwf _ ref none []

/-- A small well-formed two-module catalog used as the C3 witness. -/
def regDup : Registry :=
  load_from_dict (load_from_dict emptyReg
    ⟨ModelsSection.dictFmt [("x", ⟨"ux", "models/vae/x.bin", ""⟩),
      ("y", ⟨"uy", "models/vae/y.bin", ""⟩)],
     [("g1", ⟨"first", [".p.a.x", ".p.a.y"]⟩)]⟩ "p.a")
    ⟨ModelsSection.dictFmt [("z", ⟨"uz", "models/vae/z.bin", ""⟩)],
     [("g2", ⟨"second", [".p.a.g1", ".p.a.x", ".p.b.z"]⟩)]⟩ "p.b"

/-- Witness for C3: on a concrete well-formed catalog whose group `g2`
reaches model `x` through two different include entries, the resolved
qualified ids are pairwise distinct. -/
theorem resolve_group_qid_nodup_witness :
    wfRegB regDup = true
    ∧ (((Option.getD (get_group regDup ".p.b.g2" none) ⟨"", "", [], ""⟩).includes).length = 3)
    ∧ ((resolve_group regDup (Option.getD (get_group regDup ".p.b.g2" none) ⟨"", "", [], ""⟩) []).map qid).Nodup
    ∧ (((resolve_to_group regDup ".p.b.g2").models).map qid).Nodup :=
  ⟨by decide, by decide,
    (resolve_group_qid_nodup regDup (Option.getD (get_group regDup ".p.b.g2" none) ⟨"", "", [], ""⟩)
      [] ".p.b.g2" (by decide)).1,
    (resolve_group_qid_nodup regDup (Option.getD (get_group regDup ".p.b.g2" none) ⟨"", "", [], ""⟩)
      [] ".p.b.g2" (by decide)).2.2⟩

/-- A list-format models section that repeats the id `x`: the file-loading
path accepts it without any duplicate check, recording `x` twice in the
module's id list. -/
def listDupData : PackData :=
  ⟨ModelsSection.listFmt [(some "x", ⟨"u1", "models/vae/x1.bin", ""⟩),
    (some "x", ⟨"u2", "models/vae/x2.bin", ""⟩)], []⟩

/-- The registry obtained by loading `listDupData` as module `.m`. -/
def regListDup : Registry :=
  match load_pack_data emptyReg listDupData ".m" with
  | Except.ok r => r
  | Except.error _ => emptyReg

/-- Counterexample to C3 as stated: after loading a list-format models
section with a repeated id, `resolve_to_group` on the module reference
returns the same qualified id twice (the module branch copies the
module's id list without deduplication). -/
theorem resolve_to_group_dup_counterexample :
    ((resolve_to_group regListDup ".m").models.map qid) = [".m.x", ".m.x"]
    ∧ ¬(((resolve_to_group regListDup ".m").models.map qid).Nodup) := by
  decide

/-- C2 (amended): for a non-wildcard reference, `resolve_reference`
checks the exact module name BEFORE the model lookup, so when a reference
string is simultaneously an exact qualified Item id and an exact module
name the module's item list is returned; the single Item is returned only
when the reference is not a module name. -/
theorem resolve_reference_priority (reg : Registry) (ref : String) (ctx : Option String)
    (hstar : hasChar ref '*' = false) :
    ((reg.module_models.lookup ref).isSome = true →
      resolve_reference reg ref ctx = list_models reg ref)
    ∧ (reg.module_models.lookup ref = none → ∀ m, reg.models.lookup ref = some m →
        resolve_reference reg ref ctx = [m]) := by
  rw [resolve_reference,
    resolveRefF_pos reg _ ref ctx [] (fuelBound_pos reg ref ctx []), resolveStep.eq_def]
  rw [if_neg (by simp), hstar]
  simp only [Bool.false_eq_true, if_false]
  constructor
  · intro hmod
    rw [if_pos hmod]
  · intro hnone m hm
    rw [if_neg (by simp [hnone])]
    rw [get_model.eq_def, hm]

/-- A catalog in which `.pkg.mod` is simultaneously a qualified model id
(model `mod` of module `.pkg`) and a module name (module `.pkg.mod`, with
model `x`). -/
def regShadow : Registry :=
  load_from_dict (load_from_dict emptyReg
    ⟨ModelsSection.dictFmt [("mod", ⟨"u1", "models/vae/mod.bin", ""⟩)], []⟩ "pkg")
    ⟨ModelsSection.dictFmt [("x", ⟨"u2", "models/vae/x.bin", ""⟩)], []⟩ "pkg.mod"

/-- Counterexample to C2 as stated: `.pkg.mod` is an exact qualified
Item id, yet `resolve_reference` does not return that single Item (it
returns the items of module `.pkg.mod` instead). -/
theorem resolve_reference_priority_counterexample :
    (regShadow.models.lookup ".pkg.mod").isSome = true
    ∧ (regShadow.models.lookup ".pkg.mod").map (fun m => [m])
        ≠ some (resolve_reference regShadow ".pkg.mod" none)
    ∧ resolve_reference regShadow ".pkg.mod" none = list_models regShadow ".pkg.mod" := by
  decide

/-- Witness for C2 (amended), second part: a reference that is a model id
but not a module name resolves to the single stored model. -/
theorem resolve_reference_priority_witness :
    resolve_reference regShadow ".pkg.mod.x" none
      = [⟨"x", "u2", "models/vae/x.bin", "", ".pkg.mod"⟩] :=
  (resolve_reference_priority regShadow ".pkg.mod.x" none (by decide)).2
    (by decide) _ (by decide)

/-- The C7 scenario: catalog with modules `pkg.lora_artist`,
`pkg.lora_misc` and `pkg.core` (loaded as `.pkg.lora_artist` etc., since
every module name is rooted at the `"."` marker). -/
def regLora : Registry :=
  load_from_dict (load_from_dict (load_from_dict emptyReg
    ⟨ModelsSection.dictFmt [("a1", ⟨"u1", "models/loras/a1.bin", ""⟩),
      ("a2", ⟨"u2", "models/loras/a2.bin", ""⟩)], []⟩ "pkg.lora_artist")
    ⟨ModelsSection.dictFmt [("m1", ⟨"u3", "models/loras/m1.bin", ""⟩)], []⟩ "pkg.lora_misc")
    ⟨ModelsSection.dictFmt [("c1", ⟨"u4", "models/checkpoints/c1.bin", ""⟩)], []⟩ "pkg.core"

/-- C7 (amended): with the root-qualified spelling `.pkg.lora_*`, the
wildcard resolves to exactly the union of the items of the two `lora_`
modules, in module order, and no item of `pkg.core`. -/
theorem wildcard_lora_scenario :
    resolve_reference regLora ".pkg.lora_*" none
      = list_models regLora ".pkg.lora_artist" ++ list_models regLora ".pkg.lora_misc"
    ∧ (∀ m ∈ resolve_reference regLora ".pkg.lora_*" none, m.source_module ≠ ".pkg.core")
    ∧ (list_models regLora ".pkg.lora_artist" ++ list_models regLora ".pkg.lora_misc").length = 3 := by
  decide

/-- Counterexample to C7 as stated: the reference spelled `pkg.lora_*`
(without the root dot) matches nothing at all — the loaded module names
all start with `"."`, and the package dictionary keys carry a trailing
dot, so neither the dedicated `package.prefix*` branch nor the general
regex branch matches — while the lora modules are certainly not empty. -/
theorem wildcard_lora_scenario_counterexample :
    resolve_reference regLora "pkg.lora_*" none = []
    ∧ match_wildcard regLora "pkg.lora_*" = []
    ∧ (list_models regLora ".pkg.lora_artist").length = 2 := by
  decide

/-- Pack data defining a model and a group with the same id `x`. -/
def dupData : PackData :=
  ⟨ModelsSection.dictFmt [("x", ⟨"u1", "models/vae/x.bin", ""⟩)], [("x", ⟨"dup group", []⟩)]⟩

/-- Counterexample to C8 as stated: loading the same data through
`load_from_dict` performs no duplicate-id check — the call returns
normally (it is total and raises nothing) and afterwards the qualified id
`.m.x` is present both as an Item and as a Group. -/
theorem load_from_dict_no_dup_check :
    ((load_from_dict emptyReg dupData "m").models.lookup ".m.x").isSome = true
    ∧ ((load_from_dict emptyReg dupData "m").groups.lookup ".m.x").isSome = true := by
  decide

/-- C8 (amended): only the file-loading path checks for a group whose
qualified id collides with a model id; `_load_pack_file` succeeds exactly
when no group id of the file collides with a model qualified id already
stored by the time the groups section is processed. -/
theorem load_pack_data_ok_iff (reg : Registry) (data : PackData) (module_name : String) :
    (match load_pack_data reg data module_name with
      | Except.ok _ => true
      | Except.error _ => false) = true
    ↔ ∀ p ∈ data.groups,
        ((loadPackModels reg data module_name).models.lookup (module_name ++ "." ++ p.1))
          = none := by
  rw [load_pack_data]
  have key : ∀ (gs : List (String × GroupEntry)) (r : Registry),
      r.models = (loadPackModels reg data module_name).models →
      ((match loadPackGroups r module_name gs with
        | Except.ok _ => true
        | Except.error _ => false) = true
      ↔ ∀ p ∈ gs,
          ((loadPackModels reg data module_name).models.lookup (module_name ++ "." ++ p.1))
            = none) := by
    intro gs
    induction gs with
    | nil => intro r hr; simp [loadPackGroups]
    | cons p rest ih =>
      intro r hr
      obtain ⟨gid, entry⟩ := p
      rw [loadPackGroups]
      by_cases hdup : (r.models.lookup (module_name ++ "." ++ gid)).isSome = true
      · rw [if_pos hdup]
        simp only [List.mem_cons]
        constructor
        · intro h; cases h
        · intro h
          have := h (gid, entry) (Or.inl rfl)
          rw [← hr] at this
          rw [this] at hdup
          cases hdup
      · rw [if_neg hdup]
        have hiff := ih ⟨r.models, dictInsert (module_name ++ "." ++ gid)
          ⟨gid, entry.description, entry.includes, module_name⟩ r.groups,
          r.module_models, r.packages⟩ hr
        rw [hiff]
        simp only [List.mem_cons]
        constructor
        · intro h
          rintro p2 (rfl | hp2)
          · rw [← hr]
            cases hlk : r.models.lookup (module_name ++ "." ++ gid) with
            | some v => exact absurd (by simp [hlk]) hdup
            | none => rfl
          · exact h p2 hp2
        · intro h p2 hp2
          exact h p2 (Or.inr hp2)
  exact key data.groups (loadPackModels reg data module_name) rfl

/-- Pack data whose group id collides with no model id. -/
def okData : PackData :=
  ⟨ModelsSection.dictFmt [("x", ⟨"u1", "models/vae/x.bin", ""⟩)], [("g", ⟨"ok group", ["x"]⟩)]⟩

/-- Witness for C8 (amended): collision-free data loads successfully
through the file path. -/
theorem load_pack_data_ok_iff_witness :
    (match load_pack_data emptyReg okData ".m" with
      | Except.ok _ => true
      | Except.error _ => false) = true :=
  (load_pack_data_ok_iff emptyReg okData ".m").mpr (by decide)

/-- The merged models of `resolve_multiple` on a two-element list. -/
theorem resolve_multiple_pair (reg : Registry) (X Y : String) :
    (resolve_multiple reg [X, Y]).1.models
      = (dedupInto (dedupInto [] [] (resolve_to_group reg X).models).1
          (dedupInto [] [] (resolve_to_group reg X).models).2
          (resolve_to_group reg Y).models).1
    ∧ (resolve_multiple reg [X, Y]).2
      = [(X, identify_ref_type reg X, (resolve_to_group reg X).models.length),
         (Y, identify_ref_type reg Y, (resolve_to_group reg Y).models.length)] := by
  constructor <;> simp [resolve_multiple]

/-- Qualified-id membership in a two-list merge is membership in either
list. -/
theorem merge_pair_mem (l1 l2 : List ModelDef) (q : String) :
    (q ∈ ((dedupInto (dedupInto [] [] l1).1 (dedupInto [] [] l1).2 l2).1.map qid)
      ↔ q ∈ l1.map qid ∨ q ∈ l2.map qid) := by
  rw [dedupInto_eq, dedupInto_eq]
  simp only [List.nil_append, List.map_append, List.mem_append]
  rw [dedupFirst_mem, dedupFirst_mem, dedupSeen_mem]
  simp only [List.not_mem_nil, not_false_eq_true, and_true, false_or]
  tauto

/-- C9: `resolve_multiple [X, Y]` and `resolve_multiple [Y, X]` produce
model lists that are equal as sets of qualified ids (the merge
deduplicates across the independently resolved references), while each
`(ref, type, count)` report entry carries the reference's own independent
expansion count. -/
theorem resolve_multiple_order_insensitive (reg : Registry) (X Y : String) :
    (∀ q, q ∈ ((resolve_multiple reg [X, Y]).1.models.map qid)
        ↔ q ∈ ((resolve_multiple reg [Y, X]).1.models.map qid))
    ∧ (resolve_multiple reg [X, Y]).2
        = [(X, identify_ref_type reg X, (resolve_to_group reg X).models.length),
           (Y, identify_ref_type reg Y, (resolve_to_group reg Y).models.length)] := by
  obtain ⟨hXY1, hXY2⟩ := resolve_multiple_pair reg X Y
  obtain ⟨hYX1, _⟩ := resolve_multiple_pair reg Y X
  refine ⟨fun q => ?_, hXY2⟩
  rw [hXY1, hYX1, merge_pair_mem, merge_pair_mem]
  tauto

/-- C10: when a reference is not an exact qualified id and cannot be
qualified through the context module, `get_model` (resp. `get_group`)
falls back to the global suffix search on the reference's last
dot-segment: a unique match is returned regardless of any prefix written
in the reference, and zero or several matches give `none`. -/
theorem get_suffix_fallback (reg : Registry) (ref : String) (ctx : Option String) :
    (reg.models.lookup ref = none →
      (∀ c, ctx = some c → reg.models.lookup (c ++ "." ++ ref) = none) →
      get_model reg ref ctx = (match modelSuffixMatches reg ref with
        | [m] => some m
        | _ => none))
    ∧ (reg.groups.lookup ref = none →
      (∀ c, ctx = some c → reg.groups.lookup (c ++ "." ++ ref) = none) →
      get_group reg ref ctx = (match groupSuffixMatches reg ref with
        | [g] => some g
        | _ => none)) := by
  constructor
  · intro h1 h2
    rw [get_model.eq_def, h1]
    cases ctx with
    | none => rfl
    | some c =>
      dsimp only
      by_cases hc : (decide (c ≠ "") && !hasChar ref '.') = true
      · rw [if_pos hc, h2 c rfl]
      · rw [if_neg hc]
  · intro h1 h2
    rw [get_group.eq_def, h1]
    cases ctx with
    | none => rfl
    | some c =>
      dsimp only
      by_cases hc : (decide (c ≠ "") && !hasChar ref '.') = true
      · rw [if_pos hc, h2 c rfl]
      · rw [if_neg hc]

/-- A catalog with modules `.real.mod` (model `x`) and `.other.mod`
(model `y`): the simple id `x` is unique across the catalog. -/
def regSfx : Registry :=
  load_from_dict (load_from_dict emptyReg
    ⟨ModelsSection.dictFmt [("x", ⟨"u1", "models/vae/x.bin", ""⟩)], []⟩ "real.mod")
    ⟨ModelsSection.dictFmt [("y", ⟨"u2", "models/vae/y.bin", ""⟩)], []⟩ "other.mod"

/-- Witness for C10: the wrongly-qualified reference `wrong.where.x`
resolves to the unique model whose qualified id ends in `.x`, ignoring
the written `wrong.where` qualifier. -/
theorem get_suffix_fallback_witness :
    get_model regSfx "wrong.where.x" none
      = (match modelSuffixMatches regSfx "wrong.where.x" with
        | [m] => some m
        | _ => none)
    ∧ (get_model regSfx "wrong.where.x" none).map qid = some ".real.mod.x"
    ∧ get_model regSfx "nothere" none = none :=
  ⟨(get_suffix_fallback regSfx "wrong.where.x" none).1 (by decide) (fun c hc => by cases hc),
   by decide, by decide⟩

/-- C5: when the destination file already has exactly the expected size
(and is not HTML), `validate_and_prepare` reports
`should_download = False` and the in-process backend returns success
immediately, leaving the file untouched and issuing no content request. -/
theorem download_idempotent (server : Option String → HttpResponse) (content : String)
    (urlSize total : Nat) (hlen : strLen content = total) (hpos : 0 < total)
    (hhtml : isHtmlFs (some content) = false) :
    (validate_and_prepare (fileSizeFs (some content)) (isHtmlFs (some content))
        urlSize total).shouldDownload = false
    ∧ requests_download_file server (some content) urlSize total
        = ⟨true, some content, []⟩ := by
  have hne : total ≠ 0 := Nat.pos_iff_ne_zero.mp hpos
  have hfs : fileSizeFs (some content) = total := hlen
  have hv : validate_and_prepare (fileSizeFs (some content)) (isHtmlFs (some content))
      urlSize total = ⟨total, total, false, false⟩ := by
    rw [validate_and_prepare, hfs, hhtml]
    simp [hne, hpos, Nat.lt_irrefl]
  refine ⟨by rw [hv], ?_⟩
  rw [requests_download_file, hv]
  simp

/-- C4: resuming with an existing partial file of size `S`
(`0 < S < total`, not HTML), the in-process backend issues its single
content GET with request header `Range: bytes=S-`, appends the response
body to the existing content, and (when the server honours the range by
sending exactly the missing bytes and the result is not HTML) succeeds
with a final file of size exactly `total`. -/
theorem download_resume (server : Option String → HttpResponse) (content : String)
    (S total urlSize : Nat) (r : HttpResponse)
    (hS : strLen content = S) (hS0 : 0 < S) (hlt : S < total)
    (hhtml : isHtmlFs (some content) = false)
    (hsrv : server (some ("bytes=" ++ toString S ++ "-")) = r)
    (h416 : r.status ≠ 416) (hok : r.status < 400)
    (hbody : strLen r.body = total - S)
    (hres : isHtmlFs (some (content ++ r.body)) = false) :
    requests_download_file server (some content) urlSize total
      = ⟨true, some (content ++ r.body), [some ("bytes=" ++ toString S ++ "-")]⟩
    ∧ fileSizeFs (some (content ++ r.body)) = total := by
  have hne : total ≠ 0 := by omega
  have hfs : fileSizeFs (some content) = S := hS
  have hv : validate_and_prepare (fileSizeFs (some content)) (isHtmlFs (some content))
      urlSize total = ⟨S, total, true, false⟩ := by
    rw [validate_and_prepare, hfs, hhtml]
    simp [hne, Nat.not_lt.mpr (le_of_lt hlt), Nat.ne_of_lt hlt]
  have hsize : fileSizeFs (some (content ++ r.body)) = total := by
    have : (content ++ r.body).data = content.data ++ r.body.data := rfl
    rw [fileSizeFs, strLen, this, List.length_append]
    rw [strLen] at hS hbody
    omega
  refine ⟨?_, hsize⟩
  rw [requests_download_file, hv]
  have h400 : ¬(r.status ≥ 400) := by omega
  simp [hS0, hsrv, h416, h400, hres]

/-- Witness server for C4/C5: status 206, body of five bytes. -/
def serverW : Option String → HttpResponse := fun _ => ⟨206, 0, "fghij"⟩

/-- Witness for C5 at a concrete complete file. -/
theorem download_idempotent_witness :
    requests_download_file serverW (some "abcde") 0 5 = ⟨true, some "abcde", []⟩ :=
  (download_idempotent serverW "abcde" 0 5 (by decide) (by decide) (by decide)).2

/-- Witness for C4 at a concrete half-finished file. -/
theorem download_resume_witness :
    requests_download_file serverW (some "abcde") 0 10
      = ⟨true, some "abcdefghij", [some "bytes=5-"]⟩
    ∧ fileSizeFs (some "abcdefghij") = 10 :=
  download_resume serverW "abcde" 5 10 0 ⟨206, 0, "fghij"⟩ (by decide) (by decide)
    (by decide) (by decide) rfl (by decide) (by decide) (by decide) (by decide)

/-- C6 (showing the code bug): because `Aria2Downloader.file_size`
unconditionally returns 0, `validate_and_prepare` never short-circuits
and the post-exit validation always sees `final_size = 0`, so the aria2
backend reports failure (and surfaces the captured log) on every call —
even when the on-disk file has exactly the expected size and is not HTML.
The success branch of the source (`"Successfully downloaded"`) is
unreachable. -/
theorem aria2_download_never_ok (env : Aria2Env) (urlSize total_size : Nat)
    (ic fc : Option String) (lg : String) :
    (aria2_download_file env urlSize total_size).ok = false
    ∧ aria2_download_file ⟨true, ic, fc, lg⟩ urlSize total_size = ⟨false, true⟩ := by
  have hshould : ∀ h0 : Bool, (validate_and_prepare aria2_file_size h0
      urlSize total_size).shouldDownload = true := by
    intro h0
    rw [validate_and_prepare, aria2_file_size]
    have hbe : ∀ t : Nat, (decide (t > 0) && (0 == t)) = false := by
      intro t; cases t <;> simp
    simp [hbe]
  constructor
  · rw [aria2_download_file, hshould]
    cases hst : env.startOk <;> simp [aria2_file_size]
  · rw [aria2_download_file, hshould]
    simp [aria2_file_size]

end Comani

